import Mathlib

/-!
# Verification development for the BGP control plane cell

Shallow embedding of

* `pkg/bgpv1/cell.go` (the gated resource constructors of the BGP control
  plane module),
* `vendor/github.com/go-openapi/errors/parsing.go` (`ParseError`),
* `vendor/github.com/cilium/proxy/go/envoy/extensions/filters/http/gzip/v3/gzip.pb.go`
  (the nil-safe getters of `Gzip`),

together with models of the signaler, of the reconcile error table and of the
DiffStore, whose sources live in other packages of the repository.

Conventions: a Go pointer or interface value that may be `nil` is an `Option`;
a Go `string` is a Lean `String`, except in the byte-level embedding of
`parsing.go` that `MarshalJSON` needs, where it is its list of bytes; a
constructor that returns a `resource.Resource[T]` returns `Option Resource`,
where `none` is Go's `nil` and `some r` records the arguments with which
`resource.New` was reached.
-/

namespace Bgpv1

/-! ## Definitions: `pkg/bgpv1/cell.go` -/

/-- Modelled from the spec: the constant `ipam_option.IPAMMultiPool` of package
`pkg/ipam/option`, which the spec names as the IPAM mode `multi-pool`. -/
def IPAMMultiPool : String := "multi-pool"

/-- The fields of `option.DaemonConfig` read by `cell.go`. The method
`BGPControlPlaneEnabled()` is declared in package `option`; its result is kept
as the field `EnableBGPControlPlane`. -/
structure DaemonConfig where
  EnableBGPControlPlane : Bool
  BGPSecretsNamespace : String
  IPAM : String
  deriving DecidableEq, Repr

/-- Method `dc.BGPControlPlaneEnabled()`. -/
def DaemonConfig.BGPControlPlaneEnabled (dc : DaemonConfig) : Bool :=
  dc.EnableBGPControlPlane

/-- A `client.Clientset`, of which `cell.go` only calls `IsEnabled()`. -/
structure Clientset where
  enabled : Bool
  deriving DecidableEq, Repr

/-- Method `c.IsEnabled()`. -/
def Clientset.IsEnabled (c : Clientset) : Bool := c.enabled

/-- A `cell.Lifecycle`; the constructors only pass it on to `resource.New`. -/
structure Lifecycle where
  id : Nat
  deriving DecidableEq, Repr

/-- The typed client whose lister-watcher a constructor hands to
`utils.ListerWatcherFromTyped`. `Secrets ns` is `c.Slim().CoreV1().Secrets(ns)`,
the only namespaced one. -/
inductive TypedClient where
  | CiliumBGPPeeringPolicies
  | CiliumLoadBalancerIPPools
  | CiliumPodIPPools
  | Secrets (ns : String)
  | CiliumBGPNodeConfigs
  | CiliumBGPPeerConfigs
  | CiliumBGPAdvertisements
  deriving DecidableEq, Repr

/-- The record of one call `resource.New(lc, ListerWatcherFromTyped(client), opts...)`:
the lifecycle, the typed client that is listed and watched, and the name given
to `resource.WithMetric`, if that option is passed. -/
structure Resource where
  lc : Lifecycle
  client : TypedClient
  metric : Option String
  deriving DecidableEq, Repr

/-- The call `resource.New`. -/
def resourceNew (lc : Lifecycle) (client : TypedClient) (metric : Option String) :
    Resource :=
  { lc := lc, client := client, metric := metric }

/-- Go `newBGPPeeringPolicyResource`. -/
def newBGPPeeringPolicyResource (lc : Lifecycle) (c : Clientset) (dc : DaemonConfig) :
    Option Resource :=
  if !dc.BGPControlPlaneEnabled then none
  else if !c.IsEnabled then none
  else some (resourceNew lc .CiliumBGPPeeringPolicies (some "CiliumBGPPeeringPolicy"))

/-- Go `newLoadBalancerIPPoolResource`. -/
def newLoadBalancerIPPoolResource (lc : Lifecycle) (c : Clientset) (dc : DaemonConfig) :
    Option Resource :=
  if !dc.BGPControlPlaneEnabled then none
  else if !c.IsEnabled then none
  else some (resourceNew lc .CiliumLoadBalancerIPPools (some "CiliumLoadBalancerIPPool"))

/-- Go `newCiliumPodIPPoolResource`: one guard with three disjuncts. -/
def newCiliumPodIPPoolResource (lc : Lifecycle) (c : Clientset) (dc : DaemonConfig) :
    Option Resource :=
  if !dc.BGPControlPlaneEnabled || !c.IsEnabled || dc.IPAM != IPAMMultiPool then none
  else some (resourceNew lc .CiliumPodIPPools (some "CiliumPodIPPool"))

/-- The message of the `logger.Warn` call in `newSecretResource`. -/
def secretsNamespaceWarning : String :=
  "bgp-secrets-namespace not set, will not be able to use BGP control plane auth secrets"

/-- Go `newSecretResource`. The first component is the list of warnings written
to `logger`, in order; the second is the returned resource. No metric option is
passed to `resource.New` here. -/
def newSecretResource (lc : Lifecycle) (c : Clientset) (dc : DaemonConfig) :
    List String × Option Resource :=
  if !dc.BGPControlPlaneEnabled then ([], none)
  else if !c.IsEnabled then ([], none)
  else if dc.BGPSecretsNamespace == "" then ([secretsNamespaceWarning], none)
  else ([], some (resourceNew lc (.Secrets dc.BGPSecretsNamespace) none))

/-- Go `newBGPNodeConfigResource`. -/
def newBGPNodeConfigResource (lc : Lifecycle) (c : Clientset) (dc : DaemonConfig) :
    Option Resource :=
  if !dc.BGPControlPlaneEnabled then none
  else if !c.IsEnabled then none
  else some (resourceNew lc .CiliumBGPNodeConfigs (some "CiliumBGPNodeConfig"))

/-- Go `newBGPPeerConfigResource`. -/
def newBGPPeerConfigResource (lc : Lifecycle) (c : Clientset) (dc : DaemonConfig) :
    Option Resource :=
  if !dc.BGPControlPlaneEnabled then none
  else if !c.IsEnabled then none
  else some (resourceNew lc .CiliumBGPPeerConfigs (some "CiliumBGPPeerConfig"))

/-- Go `newBGPAdvertisementResource`. -/
def newBGPAdvertisementResource (lc : Lifecycle) (c : Clientset) (dc : DaemonConfig) :
    Option Resource :=
  if !dc.BGPControlPlaneEnabled then none
  else if !c.IsEnabled then none
  else some (resourceNew lc .CiliumBGPAdvertisements (some "CiliumBGPAdvertisement"))

end Bgpv1

namespace OpenapiErrors

/-! ## Definitions: `vendor/github.com/go-openapi/errors/parsing.go` -/

/-- A non-nil Go `error` value, represented by what its `Error()` method
returns. A possibly nil `error` is an `Option GoError`. -/
structure GoError where
  msg : String
  deriving DecidableEq, Repr

/-- Method `Error()` of an `error` value. -/
def GoError.Error (e : GoError) : String := e.msg

/-- The operands `fmt.Sprintf` receives in this file: a `string`, or an `error`
interface value that may be nil. -/
inductive FmtArg where
  | str (s : String)
  | err (e : Option GoError)
  deriving DecidableEq, Repr

/-- What `fmt` prints for one verb (`s` or `q`) and its operand. A missing
operand prints `%!v(MISSING)`, a nil interface prints `%!v(<nil>)`, an `error`
is printed through its `Error()` method, and `%q` applies `quote`
(Go `strconv.Quote`, a parameter of the model) to the text. -/
def fmtVerb (quote : String → String) (verb : Char) (arg : Option FmtArg) : List Char :=
  match arg with
  | none => '%' :: '!' :: verb :: "(MISSING)".data
  | some (.err none) => '%' :: '!' :: verb :: "(<nil>)".data
  | some (.str s) => if verb = 'q' then (quote s).data else s.data
  | some (.err (some e)) => if verb = 'q' then (quote e.Error).data else e.Error.data

/-- The scan of a format string by `fmt.Sprintf`, for the fragment of formats
used in this file: the verbs `%s` and `%q` without flags, every other character
copied. Each verb consumes the next operand. -/
def sprintfAux (quote : String → String) : List Char → List FmtArg → List Char
  | '%' :: 's' :: rest, args =>
      fmtVerb quote 's' args.head? ++ sprintfAux quote rest args.tail
  | '%' :: 'q' :: rest, args =>
      fmtVerb quote 'q' args.head? ++ sprintfAux quote rest args.tail
  | c :: rest, args => c :: sprintfAux quote rest args
  | [], _ => []

/-- Go `fmt.Sprintf` on the fragment above. -/
def Sprintf (quote : String → String) (format : String) (args : List FmtArg) : String :=
  String.mk (sprintfAux quote format.data args)

/-- Go constant `parseErrorTemplContent`. -/
def parseErrorTemplContent : String := "parsing %s %s from %q failed, because %s"

/-- Go constant `parseErrorTemplContentNoIn`. -/
def parseErrorTemplContentNoIn : String := "parsing %s from %q failed, because %s"

/-- Go constant `http.StatusBadRequest`. -/
def StatusBadRequest : Int := 400

/-- Go `type ParseError struct`. -/
structure ParseError where
  code : Int
  Name : String
  In : String
  Value : String
  Reason : Option GoError
  message : String
  deriving DecidableEq, Repr

/-- Go `func (e *ParseError) Error() string`. -/
def ParseError.Error (e : ParseError) : String := e.message

/-- Go `func (e *ParseError) Code() int32`. -/
def ParseError.Code (e : ParseError) : Int := e.code

/-- Go `NewParseError`; `quote` is the quoting that `%q` applies. -/
def NewParseError (quote : String → String) (name in_ value : String)
    (reason : Option GoError) : ParseError :=
  let msg : String :=
    if in_ == "" then
      Sprintf quote parseErrorTemplContentNoIn [.str name, .str value, .err reason]
    else
      Sprintf quote parseErrorTemplContent [.str name, .str in_, .str value, .err reason]
  { code := StatusBadRequest
    Name := name
    In := in_
    Value := value
    Reason := reason
    message := msg }

/-! ### Byte-level embedding of `parsing.go`

A Go `string` is a sequence of bytes and need not be valid UTF-8. `MarshalJSON`
depends on that: `encoding/json` writes U+FFFD for every byte that is not part
of a valid UTF-8 sequence. The definitions below embed the same functions with
a string as its list of bytes. -/

/-- A Go `byte`. -/
abbrev Byte := Fin 256

/-- A Go `string`: its bytes. -/
abbrev GoString := List Byte

/-- The bytes of an ASCII string literal of the source. -/
def asciiBytes (s : String) : GoString :=
  s.data.map fun c => Fin.ofNat c.toNat

/-- Go constant `utf8.RuneError`, U+FFFD. -/
def RuneError : Nat := 0xFFFD

/-- Go constant `utf8.RuneSelf`: bytes below it are single-byte runes. -/
def RuneSelf : Nat := 0x80

/-- The length of the UTF-8 sequence announced by a leading byte in
`0xC2..0xF4` (the low bits of Go's table `first`). -/
def runeLen (s0 : Nat) : Nat :=
  if s0 < 0xE0 then 2 else if s0 < 0xF0 then 3 else 4

/-- The least second byte accepted after the leading byte `s0` (Go's
`acceptRanges`, field `lo`). -/
def acceptLo (s0 : Nat) : Nat :=
  if s0 = 0xE0 then 0xA0 else if s0 = 0xF0 then 0x90 else 0x80

/-- The greatest second byte accepted after the leading byte `s0` (Go's
`acceptRanges`, field `hi`). -/
def acceptHi (s0 : Nat) : Nat :=
  if s0 = 0xED then 0x9F else if s0 = 0xF4 then 0x8F else 0xBF

/-- The byte `s[i]` as a number; it is only read at an index below `len(s)`. -/
def byteAt (s : GoString) (i : Nat) : Nat := (s.getD i 0).val

/-- Go `utf8.DecodeRuneInString`: the first rune of `s` and its width in bytes,
`(RuneError, 1)` for an encoding that is not valid and `(RuneError, 0)` for the
empty string. Masks and shifts are written as remainders and products. -/
def DecodeRuneInString (s : GoString) : Nat × Nat :=
  if s.length < 1 then (RuneError, 0)
  else if byteAt s 0 < 0x80 then (byteAt s 0, 1)
  else if byteAt s 0 < 0xC2 ∨ 0xF4 < byteAt s 0 then (RuneError, 1)
  else if s.length < runeLen (byteAt s 0) then (RuneError, 1)
  else if byteAt s 1 < acceptLo (byteAt s 0) ∨ acceptHi (byteAt s 0) < byteAt s 1 then
    (RuneError, 1)
  else if runeLen (byteAt s 0) ≤ 2 then ((byteAt s 0 % 32) * 64 + byteAt s 1 % 64, 2)
  else if byteAt s 2 < 0x80 ∨ 0xBF < byteAt s 2 then (RuneError, 1)
  else if runeLen (byteAt s 0) ≤ 3 then
    ((byteAt s 0 % 16) * 4096 + (byteAt s 1 % 64) * 64 + byteAt s 2 % 64, 3)
  else if byteAt s 3 < 0x80 ∨ 0xBF < byteAt s 3 then (RuneError, 1)
  else
    ((byteAt s 0 % 8) * 262144 + (byteAt s 1 % 64) * 4096 + (byteAt s 2 % 64) * 64 +
      byteAt s 3 % 64, 4)

/-- The scan of a string by the string encoder of `encoding/json`, with `fuel`
steps: a byte below `RuneSelf` is kept; where `DecodeRuneInString` answers
`(RuneError, 1)` the byte is dropped and U+FFFD (bytes `EF BF BD`) is written;
any other rune is kept with all its bytes. The result is the text that the
written JSON string denotes, in UTF-8; the escapes of the JSON syntax denote
the characters they escape and are not represented. -/
def jsonStringAux : Nat → GoString → GoString
  | 0, _ => []
  | _ + 1, [] => []
  | fuel + 1, b :: rest =>
    if b.val < RuneSelf then b :: jsonStringAux fuel rest
    else
      if (DecodeRuneInString (b :: rest)).1 = RuneError ∧
          (DecodeRuneInString (b :: rest)).2 = 1 then
        [0xEF, 0xBF, 0xBD] ++ jsonStringAux fuel rest
      else
        (b :: rest).take (DecodeRuneInString (b :: rest)).2 ++
          jsonStringAux fuel ((b :: rest).drop (DecodeRuneInString (b :: rest)).2)

/-- The JSON string that `encoding/json` writes for a Go string. Every step of
the scan consumes a byte, so `len(s)` steps reach the end of `s`. -/
def jsonString (s : GoString) : GoString := jsonStringAux s.length s

/-- Go `utf8.ValidString` with `fuel` steps: no position of the scan decodes to
an encoding error. -/
def ValidStringAux : Nat → GoString → Bool
  | 0, s => s.isEmpty
  | _ + 1, [] => true
  | fuel + 1, b :: rest =>
    if b.val < RuneSelf then ValidStringAux fuel rest
    else if (DecodeRuneInString (b :: rest)).2 = 1 then false
    else ValidStringAux fuel ((b :: rest).drop (DecodeRuneInString (b :: rest)).2)

/-- Go `utf8.ValidString`: whether `s` is valid UTF-8. -/
def ValidString (s : GoString) : Bool := ValidStringAux s.length s

/-- A non-nil Go `error` value over byte strings, represented by what its
`Error()` method returns. -/
structure GoErrorBytes where
  msg : GoString
  deriving DecidableEq, Repr

/-- Method `Error()` of an `error` value. -/
def GoErrorBytes.Error (e : GoErrorBytes) : GoString := e.msg

/-- The operands of `fmt.Sprintf` over byte strings, as `FmtArg`. -/
inductive FmtArgBytes where
  | str (s : GoString)
  | err (e : Option GoErrorBytes)
  deriving DecidableEq, Repr

/-- What `fmt` prints for one verb (`s` is byte 115, `q` is byte 113) and its
operand, as `fmtVerb`. -/
def fmtVerbBytes (quote : GoString → GoString) (verb : Byte) (arg : Option FmtArgBytes) :
    GoString :=
  match arg with
  | none => asciiBytes "%!" ++ verb :: asciiBytes "(MISSING)"
  | some (.err none) => asciiBytes "%!" ++ verb :: asciiBytes "(<nil>)"
  | some (.str s) => if verb = 113 then quote s else s
  | some (.err (some e)) => if verb = 113 then quote e.Error else e.Error

/-- The scan of a format string by `fmt.Sprintf`, as `sprintfAux`: byte 37 is
the percent sign. -/
def sprintfAuxBytes (quote : GoString → GoString) : GoString → List FmtArgBytes → GoString
  | [], _ => []
  | [b], _ => [b]
  | b :: c :: rest, args =>
    if b = 37 ∧ (c = 115 ∨ c = 113) then
      fmtVerbBytes quote c args.head? ++ sprintfAuxBytes quote rest args.tail
    else b :: sprintfAuxBytes quote (c :: rest) args

/-- Go `fmt.Sprintf` over byte strings, on the fragment of `Sprintf`. -/
def SprintfBytes (quote : GoString → GoString) (format : String) (args : List FmtArgBytes) :
    GoString :=
  sprintfAuxBytes quote (asciiBytes format) args

/-- Go `type ParseError struct`, with byte strings. -/
structure ParseErrorBytes where
  code : Int
  Name : GoString
  In : GoString
  Value : GoString
  Reason : Option GoErrorBytes
  message : GoString
  deriving DecidableEq, Repr

/-- Go `func (e *ParseError) Error() string`. -/
def ParseErrorBytes.Error (e : ParseErrorBytes) : GoString := e.message

/-- Go `func (e *ParseError) Code() int32`. -/
def ParseErrorBytes.Code (e : ParseErrorBytes) : Int := e.code

/-- A value stored in the `map[string]interface{}` built by `MarshalJSON`: an
`int32` or a `string`. -/
inductive GoValue where
  | int32 (n : Int)
  | string (s : GoString)
  deriving DecidableEq, Repr

/-- A JSON value as `encoding/json` writes the two kinds of `GoValue`; a JSON
string is kept as the UTF-8 bytes of its text. -/
inductive JSONValue where
  | number (n : Int)
  | string (s : GoString)
  deriving DecidableEq, Repr

/-- The JSON encoding of one map value: a number as it is, a string through
`jsonString`. -/
def GoValue.toJSON : GoValue → JSONValue
  | .int32 n => .number n
  | .string s => .string (jsonString s)

/-- Go `json.Marshal` applied to a `map[string]interface{}` whose values are
`int32` or `string`: it cannot fail on such values, and the result is the JSON
object with one member per map entry. The object is kept as its list of
members rather than as bytes. -/
def jsonMarshal (m : List (String × GoValue)) : Except String (List (String × JSONValue)) :=
  .ok (m.map fun kv => (kv.1, kv.2.toJSON))

/-- Go `func (e ParseError) MarshalJSON() ([]byte, error)`. -/
def ParseErrorBytes.MarshalJSON (e : ParseErrorBytes) :
    Except String (List (String × JSONValue)) :=
  let reason : GoString :=
    match e.Reason with
    | some r => r.Error
    | none => []
  jsonMarshal [
    ("code", .int32 e.code),
    ("message", .string e.message),
    ("in", .string e.In),
    ("name", .string e.Name),
    ("value", .string e.Value),
    ("reason", .string reason)]

/-- Go `NewParseError` over byte strings; `quote` is the quoting that `%q`
applies. -/
def NewParseErrorBytes (quote : GoString → GoString) (name in_ value : GoString)
    (reason : Option GoErrorBytes) : ParseErrorBytes :=
  let msg : GoString :=
    if in_ = [] then
      SprintfBytes quote parseErrorTemplContentNoIn [.str name, .str value, .err reason]
    else
      SprintfBytes quote parseErrorTemplContent [.str name, .str in_, .str value, .err reason]
  { code := StatusBadRequest
    Name := name
    In := in_
    Value := value
    Reason := reason
    message := msg }

/-- The text of the reason member: empty for a nil reason, `reason.Error()`
otherwise. -/
def reasonText (reason : Option GoErrorBytes) : GoString :=
  match reason with
  | some r => r.Error
  | none => []

/-- The object that the specification describes for `MarshalJSON` of
`NewParseError(name, in, value, reason)`, written from its words: six members,
code equal to `Code()`, message equal to `Error()`, and in, name and value equal
to the arguments unchanged. -/
def specMarshalJSON (quote : GoString → GoString) (name in_ value : GoString)
    (reason : Option GoErrorBytes) : Except String (List (String × JSONValue)) :=
  .ok [
    ("code", .number (NewParseErrorBytes quote name in_ value reason).Code),
    ("message", .string (NewParseErrorBytes quote name in_ value reason).Error),
    ("in", .string in_),
    ("name", .string name),
    ("value", .string value),
    ("reason", .string (reasonText reason))]

/-- A lower-case hexadecimal digit. -/
def hexDigit (n : Nat) : Byte := if n < 10 then Fin.ofNat (48 + n) else Fin.ofNat (87 + n)

/-- The quoting of one byte by `quoteBytes`: the double quote and the backslash
get a backslash, printable ASCII is kept, seven control bytes get their letter
escape, and any other byte is written `\xhh`. -/
def quoteByte (b : Byte) : GoString :=
  if b = 34 then [92, 34]
  else if b = 92 then [92, 92]
  else if 0x20 ≤ b.val ∧ b.val < 0x7F then [b]
  else if b = 7 then [92, 97]
  else if b = 8 then [92, 98]
  else if b = 12 then [92, 102]
  else if b = 10 then [92, 110]
  else if b = 13 then [92, 114]
  else if b = 9 then [92, 116]
  else if b = 11 then [92, 118]
  else [92, 120, hexDigit (b.val / 16), hexDigit (b.val % 16)]

/-- A quoting function for concrete inputs. It agrees with Go `strconv.Quote` on
ASCII text and on bytes that belong to no valid UTF-8 sequence; the theorems
hold for every quoting function. -/
def quoteBytes (s : GoString) : GoString :=
  [34] ++ s.flatMap quoteByte ++ [34]

end OpenapiErrors

namespace Gzipv3

/-! ## Definitions: `envoy/extensions/filters/http/gzip/v3/gzip.pb.go` -/

/-- Go `type Gzip_CompressionStrategy int32`. -/
abbrev Gzip_CompressionStrategy := Int

/-- Go constant `Gzip_DEFAULT`. -/
def Gzip_DEFAULT : Gzip_CompressionStrategy := 0
/-- Go constant `Gzip_FILTERED`. -/
def Gzip_FILTERED : Gzip_CompressionStrategy := 1
/-- Go constant `Gzip_HUFFMAN`. -/
def Gzip_HUFFMAN : Gzip_CompressionStrategy := 2
/-- Go constant `Gzip_RLE`. -/
def Gzip_RLE : Gzip_CompressionStrategy := 3

/-- Go `type Gzip_CompressionLevel_Enum int32`. -/
abbrev Gzip_CompressionLevel_Enum := Int

/-- Go constant `Gzip_CompressionLevel_DEFAULT`. -/
def Gzip_CompressionLevel_DEFAULT : Gzip_CompressionLevel_Enum := 0
/-- Go constant `Gzip_CompressionLevel_BEST`. -/
def Gzip_CompressionLevel_BEST : Gzip_CompressionLevel_Enum := 1
/-- Go constant `Gzip_CompressionLevel_SPEED`. -/
def Gzip_CompressionLevel_SPEED : Gzip_CompressionLevel_Enum := 2

/-- Go `wrapperspb.UInt32Value`. -/
structure UInt32Value where
  Value : Nat
  deriving DecidableEq, Repr

/-- Go `type Gzip struct`, its message fields. `C` is the type
`v3.Compressor` of the compressor package. The pointer fields are `Option`s;
the two enum fields have the zero value of `int32` when not set. -/
structure Gzip (C : Type) where
  MemoryLevel : Option UInt32Value := none
  CompressionLevel : Gzip_CompressionLevel_Enum := 0
  CompressionStrategy : Gzip_CompressionStrategy := 0
  WindowBits : Option UInt32Value := none
  Compressor : Option C := none
  ChunkSize : Option UInt32Value := none

/-- Go `func (x *Gzip) GetMemoryLevel() *wrapperspb.UInt32Value`; the receiver
`x` is a pointer, `none` when nil. -/
def Gzip.GetMemoryLevel {C : Type} (x : Option (Gzip C)) : Option UInt32Value :=
  match x with
  | some g => g.MemoryLevel
  | none => none

/-- Go `func (x *Gzip) GetCompressionLevel() Gzip_CompressionLevel_Enum`. -/
def Gzip.GetCompressionLevel {C : Type} (x : Option (Gzip C)) : Gzip_CompressionLevel_Enum :=
  match x with
  | some g => g.CompressionLevel
  | none => Gzip_CompressionLevel_DEFAULT

/-- Go `func (x *Gzip) GetCompressionStrategy() Gzip_CompressionStrategy`. -/
def Gzip.GetCompressionStrategy {C : Type} (x : Option (Gzip C)) : Gzip_CompressionStrategy :=
  match x with
  | some g => g.CompressionStrategy
  | none => Gzip_DEFAULT

/-- Go `func (x *Gzip) GetWindowBits() *wrapperspb.UInt32Value`. -/
def Gzip.GetWindowBits {C : Type} (x : Option (Gzip C)) : Option UInt32Value :=
  match x with
  | some g => g.WindowBits
  | none => none

/-- Go `func (x *Gzip) GetCompressor() *v3.Compressor`. -/
def Gzip.GetCompressor {C : Type} (x : Option (Gzip C)) : Option C :=
  match x with
  | some g => g.Compressor
  | none => none

/-- Go `func (x *Gzip) GetChunkSize() *wrapperspb.UInt32Value`. -/
def Gzip.GetChunkSize {C : Type} (x : Option (Gzip C)) : Option UInt32Value :=
  match x with
  | some g => g.ChunkSize
  | none => none

end Gzipv3

namespace Signaler

/-! ## Definitions: the signaler (`pkg/bgpv1/agent/signaler`, provided by `cell.go`) -/

/-- Modelled from the spec: the capacity of the signaler's notification channel,
"single-slot channel of capacity one" (section 4.1). The package
`pkg/bgpv1/agent/signaler` is not among the sources. -/
def capacity : Nat := 1

/-- Modelled from the spec: the signaler state, the number of wakeups buffered
in its channel and not yet consumed. -/
structure BGPCPSignaler where
  pending : Nat
  deriving DecidableEq, Repr

/-- Modelled from the spec: `NewBGPCPSignaler`, a signaler with an empty
channel. -/
def NewBGPCPSignaler : BGPCPSignaler := { pending := 0 }

/-- Modelled from the spec: `Event()`, a non-blocking send. It enqueues a
wakeup when the channel has room and otherwise does nothing. -/
def BGPCPSignaler.Event (s : BGPCPSignaler) : BGPCPSignaler :=
  if s.pending < capacity then { pending := s.pending + 1 } else s

/-- Modelled from the spec: one consumption from `Events()`. `some s2` delivers
a wakeup and leaves state `s2`; `none` means no wakeup is buffered and the
consumer waits. -/
def BGPCPSignaler.receive (s : BGPCPSignaler) : Option BGPCPSignaler :=
  if 0 < s.pending then some { pending := s.pending - 1 } else none

/-- The state after `n` consecutive `Event()` calls. -/
def BGPCPSignaler.EventN (s : BGPCPSignaler) : Nat → BGPCPSignaler
  | 0 => s
  | n + 1 => (s.EventN n).Event

/-- The two operations a client can perform on a signaler. -/
inductive SignalerOp where
  | event
  | consume
  deriving DecidableEq, Repr

/-- One operation on a signaler; a consumption that finds no wakeup leaves the
state as it is. -/
def BGPCPSignaler.step (s : BGPCPSignaler) : SignalerOp → BGPCPSignaler
  | .event => s.Event
  | .consume => (s.receive).getD s

/-- The state reached from a new signaler by a history of operations. -/
def runSignaler (ops : List SignalerOp) : BGPCPSignaler :=
  ops.foldl BGPCPSignaler.step NewBGPCPSignaler

/-- Modelled from the spec: the worker loop of the controller, which runs one
reconcile pass per wakeup it consumes (section 4.6, Idle to Reconciling on
SignalerTick). The result is the number of passes run until no wakeup is left,
within `fuel` iterations. -/
def reconcilePasses : Nat → BGPCPSignaler → Nat
  | 0, _ => 0
  | fuel + 1, s =>
    match s.receive with
    | none => 0
    | some s2 => reconcilePasses fuel s2 + 1

end Signaler

namespace Tables

/-! ## Definitions: the reconcile error table (`pkg/bgpv1/manager/tables`,
provided by `cell.go`) -/

/-- Modelled from the spec: the cap of the error table, "Cap per instance: 1024
rows" (section 4.7). The package `pkg/bgpv1/manager/tables` is not among the
sources. -/
def maxRowsPerInstance : Nat := 1024

/-- Modelled from the spec: the composite primary key (instance, kind, name). -/
structure Key where
  Instance : String
  ResourceKind : String
  ResourceName : String
  deriving DecidableEq, Repr

/-- Modelled from the spec: a row `ReconcileError` of section 3, with the times
`firstSeen` and `lastSeen` as numbers. -/
structure BGPReconcileError where
  Instance : String
  ResourceKind : String
  ResourceName : String
  ErrorString : String
  Count : Nat
  FirstSeen : Nat
  LastSeen : Nat
  deriving DecidableEq, Repr

/-- Modelled from the spec: the primary key of a row. -/
def BGPReconcileError.key (r : BGPReconcileError) : Key :=
  { Instance := r.Instance, ResourceKind := r.ResourceKind, ResourceName := r.ResourceName }

/-- Modelled from the spec: the table, its rows in insertion order. -/
abbrev Table := List BGPReconcileError

/-- Modelled from the spec: primary lookup on (instance, kind, name). -/
def Table.lookup (t : Table) (k : Key) : Option BGPReconcileError :=
  t.find? (fun r => decide (r.key = k))

/-- Modelled from the spec: secondary iteration by instance. -/
def Table.rowsOf (t : Table) (inst : String) : List BGPReconcileError :=
  t.filter (fun r => decide (r.Instance = inst))

/-- Modelled from the spec: the row with the oldest (smallest) `lastSeen` of a
list of rows, the earliest one in the list among equals. -/
def oldest : List BGPReconcileError → Option BGPReconcileError
  | [] => none
  | r :: rs =>
    match oldest rs with
    | none => some r
    | some m => if r.LastSeen ≤ m.LastSeen then some r else some m

/-- Modelled from the spec: "eviction by oldest lastSeen", removing from the
table the oldest row of one instance. -/
def Table.evict (t : Table) (inst : String) : Table :=
  match oldest (t.rowsOf inst) with
  | none => t
  | some v => t.erase v

/-- Modelled from the spec: the row written for a first report of an error at
time `now`. -/
def newRow (k : Key) (msg : String) (now : Nat) : BGPReconcileError :=
  { Instance := k.Instance, ResourceKind := k.ResourceKind, ResourceName := k.ResourceName,
    ErrorString := msg, Count := 1, FirstSeen := now, LastSeen := now }

/-- Modelled from the spec: insertion (section 4.7). "Insertion deduplicates by
primary key, incrementing count and updating lastSeen when message matches
previous; on change of message, previous row is replaced. Cap per instance:
1024 rows; eviction by oldest lastSeen." -/
def Table.insert (t : Table) (k : Key) (msg : String) (now : Nat) : Table :=
  match t.lookup k with
  | some old =>
    let new : BGPReconcileError :=
      if old.ErrorString = msg then { old with Count := old.Count + 1, LastSeen := now }
      else newRow k msg now
    t.map (fun r => if r.key = k then new else r)
  | none =>
    (if maxRowsPerInstance ≤ (t.rowsOf k.Instance).length then t.evict k.Instance else t)
      ++ [newRow k msg now]

/-- Modelled from the spec: delete by composite key. -/
def Table.delete (t : Table) (k : Key) : Table :=
  t.filter (fun r => !decide (r.key = k))

/-- The same failure reported once at each of the given times, in order. -/
def Table.insertAll (t : Table) (k : Key) (msg : String) (times : List Nat) : Table :=
  times.foldl (fun acc now => acc.insert k msg now) t

/-- The writes a client can perform on the table. -/
inductive TableOp where
  | insert (k : Key) (msg : String) (now : Nat)
  | delete (k : Key)
  deriving DecidableEq, Repr

/-- One write on the table. -/
def Table.apply (t : Table) : TableOp → Table
  | .insert k msg now => t.insert k msg now
  | .delete k => t.delete k

/-- The table reached from the empty table by a history of writes: the
reachable states. -/
def runTable (ops : List TableOp) : Table := ops.foldl Table.apply []

/-- The invariant of reachable tables: no instance has more rows than the cap,
and primary keys are unique. -/
def Table.Inv (t : Table) : Prop :=
  (∀ inst, (t.rowsOf inst).length ≤ maxRowsPerInstance) ∧ (t.map BGPReconcileError.key).Nodup

/-- A row of instance 65001, used as a concrete input. -/
def exampleRow : BGPReconcileError :=
  { Instance := "65001", ResourceKind := "PeerConfig", ResourceName := "peer-a",
    ErrorString := "secret not found", Count := 3, FirstSeen := 10, LastSeen := 30 }

/-- The key of `exampleRow`. -/
def exampleKey : Key :=
  { Instance := "65001", ResourceKind := "PeerConfig", ResourceName := "peer-a" }

/-- The key of the `i`-th of a family of distinct resources of instance 65001;
its name is `i` letters `a`. -/
def fillKey (i : Nat) : Key :=
  { Instance := "65001", ResourceKind := "PeerConfig",
    ResourceName := String.mk (List.replicate i 'a') }

/-- A history that reports one error for each of the first `n` resources of
`fillKey`, at increasing times. -/
def fillOps (n : Nat) : List TableOp :=
  (List.range n).map fun i => .insert (fillKey i) "secret not found" (i + 10)

/-- The table that `fillOps n` builds while `n` is within the cap. -/
def fillTable (n : Nat) : Table :=
  (List.range n).map fun i => newRow (fillKey i) "secret not found" (i + 10)

/-- A key of instance 65001 that is none of the `fillKey i`. -/
def freshKey : Key :=
  { Instance := "65001", ResourceKind := "PeerConfig", ResourceName := "bgp-auth" }

end Tables

namespace Store

/-! ## Definitions: the DiffStore (`pkg/bgpv1/manager/store`, provided by `cell.go`) -/

/-- Modelled from the spec: the identity of a watched object, "a typed object
identified by namespace/name" (section 2). The package
`pkg/bgpv1/manager/store` is not among the sources. -/
structure ResourceKey where
  Namespace : String
  Name : String
  deriving DecidableEq, Repr

/-- Modelled from the spec: what a DiffStore records on top of a store, "since
the last Diff(), the set of upserted keys and the set of deleted keys"
(section 4.2). Each set is kept as the list of its keys in order of arrival. -/
structure DiffStore where
  upsertedKeys : List ResourceKey
  deletedKeys : List ResourceKey
  deriving DecidableEq, Repr

/-- Modelled from the spec: `NewDiffStore`, with nothing recorded. -/
def NewDiffStore : DiffStore := { upsertedKeys := [], deletedKeys := [] }

/-- Modelled from the spec: adding a key to a set of keys; a key already in the
set is not added again. -/
def addKey (keys : List ResourceKey) (k : ResourceKey) : List ResourceKey :=
  if k ∈ keys then keys else keys ++ [k]

/-- Modelled from the spec: an upsert event for key `k`. The key joins the
upserted set unless it is in the deleted set, "deletes win over upserts on
collision". -/
def DiffStore.upsert (s : DiffStore) (k : ResourceKey) : DiffStore :=
  if k ∈ s.deletedKeys then s
  else { upsertedKeys := addKey s.upsertedKeys k, deletedKeys := s.deletedKeys }

/-- Modelled from the spec: a delete event for key `k`. The key joins the
deleted set and leaves the upserted set, "deletes win over upserts on
collision". -/
def DiffStore.delete (s : DiffStore) (k : ResourceKey) : DiffStore :=
  { upsertedKeys := s.upsertedKeys.filter (fun j => !decide (j = k)),
    deletedKeys := addKey s.deletedKeys k }

/-- Modelled from the spec: "Diff() drains and returns (upserted[], deleted[])".
The first component is the pair of returned slices, the second the drained
store. -/
def DiffStore.Diff (s : DiffStore) : (List ResourceKey × List ResourceKey) × DiffStore :=
  ((s.upsertedKeys, s.deletedKeys), NewDiffStore)

/-- Modelled from the spec: the change events of a watcher that a DiffStore
records, "(Upsert | Delete | Sync) events"; a Sync event records no key. -/
inductive StoreEvent where
  | upsert (k : ResourceKey)
  | delete (k : ResourceKey)
  deriving DecidableEq, Repr

/-- Modelled from the spec: the handling of one event. -/
def DiffStore.handleEvent (s : DiffStore) : StoreEvent → DiffStore
  | .upsert k => s.upsert k
  | .delete k => s.delete k

/-- The store after a sequence of events, handled in order. -/
def DiffStore.handleEvents (s : DiffStore) (events : List StoreEvent) : DiffStore :=
  events.foldl DiffStore.handleEvent s

/-- A Service key, used as a concrete input. -/
def svcA : ResourceKey := { Namespace := "default", Name := "svc-a" }

/-- A second Service key, used as a concrete input. -/
def svcB : ResourceKey := { Namespace := "default", Name := "svc-b" }

end Store

namespace Bgpv1

/-! ## Definitions: namespace scope of a lister-watcher -/

/-- The namespaces whose Secrets a typed client lists and watches, after the
Kubernetes client convention that `Secrets(ns)` is confined to namespace `ns`
and that the empty namespace (`NamespaceAll`) stands for every namespace. The
clients of the other kinds list no Secrets. -/
def TypedClient.listsSecretsOf : TypedClient → String → Bool
  | .Secrets ns, n => ns == "" || n == ns
  | _, _ => false

end Bgpv1

/-! ## Theorems: `pkg/bgpv1/cell.go` -/

namespace Bgpv1

/-- C1: `newCiliumPodIPPoolResource` reaches `resource.New` (returns non-nil)
exactly when the BGP control plane is enabled, the clientset is enabled and the
IPAM mode is multi-pool; and it returns nil whenever the IPAM mode is not
multi-pool. -/
theorem newCiliumPodIPPoolResource_isSome_iff (lc : Lifecycle) (c : Clientset)
    (dc : DaemonConfig) :
    ((newCiliumPodIPPoolResource lc c dc).isSome = true ↔
        (dc.BGPControlPlaneEnabled = true ∧ c.IsEnabled = true ∧ dc.IPAM = IPAMMultiPool)) ∧
      (newCiliumPodIPPoolResource lc c dc =
        if dc.BGPControlPlaneEnabled = true ∧ c.IsEnabled = true ∧ dc.IPAM = IPAMMultiPool
        then some (resourceNew lc .CiliumPodIPPools (some "CiliumPodIPPool")) else none) ∧
      (dc.IPAM ≠ IPAMMultiPool → newCiliumPodIPPoolResource lc c dc = none) := by
  unfold newCiliumPodIPPoolResource
  cases hb : dc.BGPControlPlaneEnabled <;> cases hc : c.IsEnabled <;>
    by_cases hi : dc.IPAM = IPAMMultiPool <;> simp [hi]

/-- Witness for C1: with BGP and the clientset enabled but cluster-pool IPAM,
no CiliumPodIPPool resource is created. -/
theorem newCiliumPodIPPoolResource_isSome_iff_witness :
    newCiliumPodIPPoolResource ⟨0⟩ ⟨true⟩ ⟨true, "kube-system", "cluster-pool"⟩ = none :=
  (newCiliumPodIPPoolResource_isSome_iff ⟨0⟩ ⟨true⟩ ⟨true, "kube-system", "cluster-pool"⟩).2.2
    (by decide)

/-- C2: `newSecretResource` returns nil whenever `BGPSecretsNamespace` is the
empty string, and it creates the Secret resource (returns non-nil) exactly when
the BGP control plane is enabled, the clientset is enabled and the namespace is
non-empty. -/
theorem newSecretResource_isSome_iff (lc : Lifecycle) (c : Clientset) (dc : DaemonConfig) :
    (dc.BGPSecretsNamespace = "" → (newSecretResource lc c dc).2 = none) ∧
      ((newSecretResource lc c dc).2.isSome = true ↔
        (dc.BGPControlPlaneEnabled = true ∧ c.IsEnabled = true ∧
          dc.BGPSecretsNamespace ≠ "")) := by
  unfold newSecretResource
  cases hb : dc.BGPControlPlaneEnabled <;> cases hc : c.IsEnabled <;>
    by_cases hn : dc.BGPSecretsNamespace = "" <;> simp [hn]

/-- Witness for C2: with BGP and the clientset enabled and an empty secrets
namespace, no Secret resource is created. -/
theorem newSecretResource_isSome_iff_witness :
    (newSecretResource ⟨0⟩ ⟨true⟩ ⟨true, "", "multi-pool"⟩).2 = none :=
  (newSecretResource_isSome_iff ⟨0⟩ ⟨true⟩ ⟨true, "", "multi-pool"⟩).1 (by decide)

/-- C3: when the BGP control plane is disabled or the clientset is disabled,
each of the seven resource constructors returns nil, whatever the IPAM mode and
the secrets namespace are. -/
theorem constructors_nil_of_disabled (lc : Lifecycle) (c : Clientset) (dc : DaemonConfig)
    (h : dc.BGPControlPlaneEnabled = false ∨ c.IsEnabled = false) :
    newBGPPeeringPolicyResource lc c dc = none ∧
      newLoadBalancerIPPoolResource lc c dc = none ∧
      newCiliumPodIPPoolResource lc c dc = none ∧
      (newSecretResource lc c dc).2 = none ∧
      newBGPNodeConfigResource lc c dc = none ∧
      newBGPPeerConfigResource lc c dc = none ∧
      newBGPAdvertisementResource lc c dc = none := by
  unfold newBGPPeeringPolicyResource newLoadBalancerIPPoolResource
    newCiliumPodIPPoolResource newSecretResource newBGPNodeConfigResource
    newBGPPeerConfigResource newBGPAdvertisementResource
  rcases h with h | h
  · simp [h]
  · cases hb : dc.BGPControlPlaneEnabled <;> simp [h]

/-- Witness for C3: the clientset is disabled while BGP is enabled, the IPAM
mode is multi-pool and a secrets namespace is set. -/
theorem constructors_nil_of_disabled_witness :
    ((⟨true, "kube-system", "multi-pool"⟩ : DaemonConfig).BGPControlPlaneEnabled = false ∨
        (⟨false⟩ : Clientset).IsEnabled = false) ∧
      (newBGPPeeringPolicyResource ⟨7⟩ ⟨false⟩ ⟨true, "kube-system", "multi-pool"⟩ = none ∧
      newLoadBalancerIPPoolResource ⟨7⟩ ⟨false⟩ ⟨true, "kube-system", "multi-pool"⟩ = none ∧
      newCiliumPodIPPoolResource ⟨7⟩ ⟨false⟩ ⟨true, "kube-system", "multi-pool"⟩ = none ∧
      (newSecretResource ⟨7⟩ ⟨false⟩ ⟨true, "kube-system", "multi-pool"⟩).2 = none ∧
      newBGPNodeConfigResource ⟨7⟩ ⟨false⟩ ⟨true, "kube-system", "multi-pool"⟩ = none ∧
      newBGPPeerConfigResource ⟨7⟩ ⟨false⟩ ⟨true, "kube-system", "multi-pool"⟩ = none ∧
      newBGPAdvertisementResource ⟨7⟩ ⟨false⟩ ⟨true, "kube-system", "multi-pool"⟩ = none) :=
  ⟨Or.inr rfl,
    constructors_nil_of_disabled ⟨7⟩ ⟨false⟩ ⟨true, "kube-system", "multi-pool"⟩ (Or.inr rfl)⟩

end Bgpv1

/-! ## Theorems: `go-openapi/errors/parsing.go` -/

namespace OpenapiErrors

/-- C4: for every name, in, value and reason, and whatever `%q` quoting is used,
`Code()` of the error returned by `NewParseError` is 400
(`http.StatusBadRequest`). -/
theorem NewParseError_code (quote : String → String) (name in_ value : String)
    (reason : Option GoError) :
    (NewParseError quote name in_ value reason).Code = 400 ∧
      (NewParseError quote name in_ value reason).Code = StatusBadRequest := by
  constructor <;> rfl

/-- C5: for every name, in, value and non-nil reason, `Error()` of
`NewParseError(name, in, value, reason)` is
`parsing <name> from <quoted value> failed, because <reason.Error()>` when `in`
is empty, and `parsing <name> <in> from <quoted value> failed, because
<reason.Error()>` when `in` is non-empty. -/
theorem NewParseError_error (quote : String → String) (name in_ value : String)
    (reason : GoError) :
    (NewParseError quote name in_ value (some reason)).Error =
      if in_ = "" then
        "parsing " ++ name ++ " from " ++ quote value ++ " failed, because " ++ reason.Error
      else
        "parsing " ++ name ++ " " ++ in_ ++ " from " ++ quote value ++
          " failed, because " ++ reason.Error := by
  by_cases h : in_ = ""
  · subst h
    apply String.ext
    simp [NewParseError, ParseError.Error, Sprintf, parseErrorTemplContentNoIn, sprintfAux,
      fmtVerb]
  · apply String.ext
    simp [NewParseError, ParseError.Error, Sprintf, parseErrorTemplContent, sprintfAux,
      fmtVerb, h]

end OpenapiErrors

/-! ## Theorems: `gzip.pb.go` -/

namespace Gzipv3

/-- C7: every getter of `Gzip` is total; on a nil receiver the two enum getters
return their `DEFAULT` constant (0) and the four pointer getters return nil; on
a non-nil receiver each getter returns the field; and a `Gzip` built without
setting `compression_level` reports `DEFAULT`. -/
theorem Gzip_getters {C : Type} (g : Gzip C) :
    (Gzip.GetCompressionLevel (none : Option (Gzip C)) = Gzip_CompressionLevel_DEFAULT ∧
      Gzip_CompressionLevel_DEFAULT = 0 ∧
      Gzip.GetCompressionStrategy (none : Option (Gzip C)) = Gzip_DEFAULT ∧
      Gzip_DEFAULT = 0 ∧
      Gzip.GetMemoryLevel (none : Option (Gzip C)) = none ∧
      Gzip.GetWindowBits (none : Option (Gzip C)) = none ∧
      Gzip.GetCompressor (none : Option (Gzip C)) = none ∧
      Gzip.GetChunkSize (none : Option (Gzip C)) = none) ∧
    (Gzip.GetCompressionLevel (some g) = g.CompressionLevel ∧
      Gzip.GetCompressionStrategy (some g) = g.CompressionStrategy ∧
      Gzip.GetMemoryLevel (some g) = g.MemoryLevel ∧
      Gzip.GetWindowBits (some g) = g.WindowBits ∧
      Gzip.GetCompressor (some g) = g.Compressor ∧
      Gzip.GetChunkSize (some g) = g.ChunkSize) ∧
    (∀ (m w k : Option UInt32Value) (s : Gzip_CompressionStrategy) (co : Option C),
      Gzip.GetCompressionLevel (some ({
          MemoryLevel := m, CompressionStrategy := s, WindowBits := w,
          Compressor := co, ChunkSize := k } : Gzip C)) =
        Gzip_CompressionLevel_DEFAULT) := by
  refine ⟨⟨rfl, rfl, rfl, rfl, rfl, rfl, rfl, rfl⟩, ⟨rfl, rfl, rfl, rfl, rfl, rfl⟩, ?_⟩
  intro m w k s co
  rfl

end Gzipv3

/-! ## Theorems: the signaler -/

namespace Signaler

theorem step_pending_le (s : BGPCPSignaler) (op : SignalerOp) (h : s.pending ≤ capacity) :
    (s.step op).pending ≤ capacity := by
  cases op with
  | event =>
    simp only [BGPCPSignaler.step, BGPCPSignaler.Event]
    split
    · simp only; omega
    · exact h
  | consume =>
    simp only [BGPCPSignaler.step, BGPCPSignaler.receive]
    split
    · simp only [Option.getD_some]; omega
    · exact h

theorem foldl_pending_le : ∀ (ops : List SignalerOp) (s : BGPCPSignaler),
    s.pending ≤ capacity → (ops.foldl BGPCPSignaler.step s).pending ≤ capacity
  | [], _, h => h
  | op :: ops, s, h => foldl_pending_le ops (s.step op) (step_pending_le s op h)

theorem run_pending_le (ops : List SignalerOp) : (runSignaler ops).pending ≤ capacity :=
  foldl_pending_le ops NewBGPCPSignaler (Nat.zero_le _)

theorem EventN_pending (s : BGPCPSignaler) (h : s.pending ≤ capacity) :
    ∀ n, 1 ≤ n → s.EventN n = { pending := 1 }
  | 0, hn => absurd hn (by decide)
  | n + 1, _ => by
    simp only [BGPCPSignaler.EventN]
    rcases Nat.eq_zero_or_pos n with h0 | hpos
    · subst h0
      simp only [BGPCPSignaler.EventN, BGPCPSignaler.Event, capacity] at *
      split
      · congr 1; omega
      · cases s; simp only [BGPCPSignaler.mk.injEq] at *; omega
    · rw [EventN_pending s h n hpos]
      rfl

/-- C8: signaler coalescing. In every reachable state at most one wakeup is
pending; after N >= 1 calls of `Event()` exactly one wakeup is pending, so the
next consumption delivers one wakeup and the consumption after it finds none,
and the worker runs exactly one reconcile pass; and `Event()` on a state with a
pending wakeup leaves the state unchanged. -/
theorem signaler_coalescing (hist : List SignalerOp) (N fuel : Nat) (hN : 1 ≤ N) :
    (runSignaler hist).pending ≤ 1 ∧
      ((runSignaler hist).EventN N).pending = 1 ∧
      (∃ s2, ((runSignaler hist).EventN N).receive = some s2 ∧ s2.receive = none) ∧
      reconcilePasses (fuel + 1) ((runSignaler hist).EventN N) = 1 ∧
      ((runSignaler hist).pending = 1 → (runSignaler hist).Event = runSignaler hist) := by
  have h := run_pending_le hist
  rw [EventN_pending _ h N hN]
  refine ⟨h, rfl, ⟨{ pending := 0 }, rfl, rfl⟩, ?_, ?_⟩
  · cases fuel <;> rfl
  · intro hp
    simp [BGPCPSignaler.Event, hp, capacity]

/-- Witness for C8: a storm of 1000 `Event()` calls after an earlier wakeup was
consumed and another one was signalled. -/
theorem signaler_coalescing_witness :
    (runSignaler [.event, .consume, .event]).pending ≤ 1 ∧
      ((runSignaler [.event, .consume, .event]).EventN 1000).pending = 1 ∧
      (∃ s2, ((runSignaler [.event, .consume, .event]).EventN 1000).receive = some s2 ∧
        s2.receive = none) ∧
      reconcilePasses (5 + 1) ((runSignaler [.event, .consume, .event]).EventN 1000) = 1 ∧
      ((runSignaler [.event, .consume, .event]).pending = 1 →
        (runSignaler [.event, .consume, .event]).Event = runSignaler [.event, .consume, .event]) :=
  signaler_coalescing [.event, .consume, .event] 1000 5 (by decide)

end Signaler

/-! ## Theorems: the reconcile error table -/

namespace Tables

theorem newRow_key (k : Key) (msg : String) (now : Nat) : (newRow k msg now).key = k := rfl

theorem lookup_eq_head?_filter (t : Table) (k : Key) :
    t.lookup k = (t.filter (fun r => decide (r.key = k))).head? := by
  unfold Table.lookup
  induction t with
  | nil => rfl
  | cons r rs ih =>
    by_cases h : r.key = k
    · have hd : decide (r.key = k) = true := decide_eq_true h
      rw [List.find?_cons, List.filter_cons]
      simp only [hd, if_true, List.head?_cons]
    · have hd : decide (r.key = k) = false := decide_eq_false h
      rw [List.find?_cons, List.filter_cons]
      simp only [hd, ih]
      rfl

theorem filter_key_map_replace (t : Table) (k : Key) (new : BGPReconcileError)
    (hnew : new.key = k) :
    (t.map (fun r => if r.key = k then new else r)).filter (fun r => decide (r.key = k)) =
      (t.filter (fun r => decide (r.key = k))).map (fun _ => new) := by
  induction t with
  | nil => rfl
  | cons r rs ih =>
    by_cases h : r.key = k
    · subst h
      simp [List.filter_cons, hnew, ih]
    · simp [List.filter_cons, h, ih]

theorem filter_other_map_replace (t : Table) (k : Key) (new : BGPReconcileError)
    (hnew : new.key = k) :
    (t.map (fun r => if r.key = k then new else r)).filter (fun r => !decide (r.key = k)) =
      t.filter (fun r => !decide (r.key = k)) := by
  induction t with
  | nil => rfl
  | cons r rs ih =>
    by_cases h : r.key = k
    · subst h
      simp [List.filter_cons, hnew, ih]
    · simp [List.filter_cons, h, ih]

theorem oldest_mem : ∀ (l : List BGPReconcileError) (v : BGPReconcileError),
    oldest l = some v → v ∈ l
  | [], v, h => by simp [oldest] at h
  | r :: rs, v, h => by
    unfold oldest at h
    cases hm : oldest rs with
    | none =>
      rw [hm] at h
      simp at h
      simp [h]
    | some m =>
      rw [hm] at h
      have := oldest_mem rs m hm
      by_cases hle : r.LastSeen ≤ m.LastSeen
      · simp [hle] at h
        simp [h]
      · simp [hle] at h
        subst h
        simp [this]

theorem oldest_le : ∀ (l : List BGPReconcileError) (v : BGPReconcileError),
    oldest l = some v → ∀ r ∈ l, v.LastSeen ≤ r.LastSeen
  | [], v, h => by simp [oldest] at h
  | r :: rs, v, h => by
    unfold oldest at h
    cases hm : oldest rs with
    | none =>
      rw [hm] at h
      simp at h
      subst h
      have hnil : rs = [] := by
        cases rs with
        | nil => rfl
        | cons a as =>
          exfalso
          unfold oldest at hm
          cases h2 : oldest as with
          | none => simp [h2] at hm
          | some m2 =>
            simp [h2] at hm
            by_cases hh : a.LastSeen ≤ m2.LastSeen <;> simp [hh] at hm
      subst hnil
      intro x hx
      simp at hx
      subst hx
      exact le_refl _
    | some m =>
      rw [hm] at h
      have ih := oldest_le rs m hm
      intro x hx
      by_cases hle : r.LastSeen ≤ m.LastSeen
      · simp [hle] at h
        subst h
        rcases List.mem_cons.1 hx with hx | hx
        · subst hx; exact le_refl _
        · exact le_trans hle (ih x hx)
      · simp [hle] at h
        subst h
        rcases List.mem_cons.1 hx with hx | hx
        · subst hx; omega
        · exact ih x hx

theorem oldest_isSome : ∀ (l : List BGPReconcileError), l ≠ [] → ∃ v, oldest l = some v
  | [], h => absurd rfl h
  | r :: rs, _ => by
    unfold oldest
    cases hm : oldest rs with
    | none => exact ⟨r, rfl⟩
    | some m =>
      by_cases hle : r.LastSeen ≤ m.LastSeen
      · exact ⟨r, by simp [hle]⟩
      · exact ⟨m, by simp [hle]⟩

theorem lookup_key {t : Table} {k : Key} {old : BGPReconcileError}
    (h : t.lookup k = some old) : old.key = k := by
  have := List.find?_some h
  simpa using this

theorem bump_key (old : BGPReconcileError) (now : Nat) :
    ({ old with Count := old.Count + 1, LastSeen := now } : BGPReconcileError).key = old.key :=
  rfl

theorem insert_found (t : Table) (k : Key) (msg : String) (now : Nat)
    (old : BGPReconcileError) (h : t.lookup k = some old) :
    t.insert k msg now =
      t.map (fun r => if r.key = k then
        (if old.ErrorString = msg then { old with Count := old.Count + 1, LastSeen := now }
          else newRow k msg now) else r) := by
  unfold Table.insert
  rw [h]

theorem insert_found_key (k : Key) (msg : String) (now : Nat)
    (old : BGPReconcileError) (h : old.key = k) :
    (if old.ErrorString = msg then
        ({ old with Count := old.Count + 1, LastSeen := now } : BGPReconcileError)
      else newRow k msg now).key = k := by
  split
  · rw [bump_key, h]
  · rfl

theorem insert_found_lookup (t : Table) (k : Key) (msg : String) (now : Nat)
    (old : BGPReconcileError) (h : t.lookup k = some old) :
    (t.insert k msg now).lookup k = some
      (if old.ErrorString = msg then { old with Count := old.Count + 1, LastSeen := now }
        else newRow k msg now) := by
  rw [insert_found t k msg now old h, lookup_eq_head?_filter,
    filter_key_map_replace t k _ (insert_found_key k msg now old (lookup_key h))]
  rw [lookup_eq_head?_filter] at h
  cases hf : t.filter (fun r => decide (r.key = k)) with
  | nil => rw [hf] at h; simp at h
  | cons a as => simp

theorem insert_found_filter (t : Table) (k : Key) (msg : String) (now : Nat)
    (old : BGPReconcileError) (h : t.lookup k = some old) :
    (t.insert k msg now).filter (fun r => decide (r.key = k)) =
      (t.filter (fun r => decide (r.key = k))).map (fun _ =>
        if old.ErrorString = msg then { old with Count := old.Count + 1, LastSeen := now }
        else newRow k msg now) := by
  rw [insert_found t k msg now old h,
    filter_key_map_replace t k _ (insert_found_key k msg now old (lookup_key h))]

theorem insert_found_others (t : Table) (k : Key) (msg : String) (now : Nat)
    (old : BGPReconcileError) (h : t.lookup k = some old) :
    (t.insert k msg now).filter (fun r => !decide (r.key = k)) =
      t.filter (fun r => !decide (r.key = k)) := by
  rw [insert_found t k msg now old h,
    filter_other_map_replace t k _ (insert_found_key k msg now old (lookup_key h))]

theorem insert_found_length (t : Table) (k : Key) (msg : String) (now : Nat)
    (old : BGPReconcileError) (h : t.lookup k = some old) :
    (t.insert k msg now).length = t.length := by
  rw [insert_found t k msg now old h, List.length_map]

theorem evict_sublist (t : Table) (inst : String) : (t.evict inst).Sublist t := by
  unfold Table.evict
  cases oldest (t.rowsOf inst) with
  | none => exact List.Sublist.refl _
  | some v => exact List.erase_sublist v t

theorem insert_absent (t : Table) (k : Key) (msg : String) (now : Nat)
    (h : t.lookup k = none) :
    t.insert k msg now =
      (if maxRowsPerInstance ≤ (t.rowsOf k.Instance).length then t.evict k.Instance else t)
        ++ [newRow k msg now] := by
  unfold Table.insert
  rw [h]

theorem filter_key_of_absent (t u : Table) (k : Key) (h : t.lookup k = none)
    (hs : u.Sublist t) : u.filter (fun r => decide (r.key = k)) = [] := by
  rw [List.filter_eq_nil_iff]
  intro r hr
  unfold Table.lookup at h
  rw [List.find?_eq_none] at h
  exact h r (hs.subset hr)

theorem insert_absent_filter (t : Table) (k : Key) (msg : String) (now : Nat)
    (h : t.lookup k = none) :
    (t.insert k msg now).filter (fun r => decide (r.key = k)) = [newRow k msg now] := by
  rw [insert_absent t k msg now h, List.filter_append]
  have hsub : (if maxRowsPerInstance ≤ (t.rowsOf k.Instance).length then t.evict k.Instance
      else t).Sublist t := by
    split
    · exact evict_sublist t k.Instance
    · exact List.Sublist.refl _
  rw [filter_key_of_absent t _ k h hsub]
  simp [List.filter_cons, newRow_key]

theorem insertAll_filter (k : Key) :
    ∀ (times : List Nat) (t : Table) (row : BGPReconcileError),
      t.filter (fun r => decide (r.key = k)) = [row] →
      (t.insertAll k row.ErrorString times).filter (fun r => decide (r.key = k)) =
        [{ row with Count := row.Count + times.length,
                    LastSeen := (times.getLast?).getD row.LastSeen }]
  | [], t, row, h => by simpa [Table.insertAll] using h
  | now :: later, t, row, h => by
    have hl : t.lookup k = some row := by rw [lookup_eq_head?_filter, h]; rfl
    have hstep := insert_found_filter t k row.ErrorString now row hl
    rw [h] at hstep
    simp only [if_true, List.map_cons, List.map_nil] at hstep
    have ih := insertAll_filter k later (t.insert k row.ErrorString now) _ hstep
    have hunf : t.insertAll k row.ErrorString (now :: later) =
        (t.insert k row.ErrorString now).insertAll k row.ErrorString later := rfl
    rw [hunf]
    refine ih.trans ?_
    cases later with
    | nil => rfl
    | cons a as =>
      have hc : row.Count + 1 + (a :: as).length = row.Count + (now :: a :: as).length := by
        simp only [List.length_cons]; omega
      simp only [List.getLast?_cons_cons, hc]
      rfl

theorem key_instance {r : BGPReconcileError} {k : Key} (h : r.key = k) :
    r.Instance = k.Instance := by
  rw [← h]; rfl

theorem rowsOf_map_length (t : Table) (inst : String) (f : BGPReconcileError → BGPReconcileError)
    (hf : ∀ r, (f r).Instance = r.Instance) :
    (Table.rowsOf (t.map f) inst).length = (t.rowsOf inst).length := by
  unfold Table.rowsOf
  induction t with
  | nil => rfl
  | cons r rs ih =>
    simp only [List.map_cons, List.filter_cons, hf r]
    split
    · simp only [List.length_cons, ih]
    · exact ih

theorem rowsOf_erase_length (t : Table) (inst : String) (v : BGPReconcileError)
    (hv : v ∈ t) (hi : v.Instance = inst) :
    (Table.rowsOf (t.erase v) inst).length + 1 = (t.rowsOf inst).length := by
  unfold Table.rowsOf
  rw [← List.erase_filter]
  have hm : v ∈ t.filter (fun r => decide (r.Instance = inst)) := by
    simp [List.mem_filter, hv, hi]
  rw [List.length_erase_of_mem hm]
  have : 0 < (t.filter (fun r => decide (r.Instance = inst))).length :=
    List.length_pos_of_mem hm
  omega

theorem rowsOf_sublist_length {t u : Table} (inst : String) (h : u.Sublist t) :
    (u.rowsOf inst).length ≤ (t.rowsOf inst).length :=
  (h.filter _).length_le

theorem rowsOf_append_singleton (t : Table) (inst : String) (r : BGPReconcileError) :
    (Table.rowsOf (t ++ [r]) inst).length =
      (t.rowsOf inst).length + (if r.Instance = inst then 1 else 0) := by
  unfold Table.rowsOf
  rw [List.filter_append, List.length_append, List.filter_cons]
  split <;> simp_all

theorem evict_spec (t : Table) (inst : String) (h : t.rowsOf inst ≠ []) :
    ∃ v, oldest (t.rowsOf inst) = some v ∧ v ∈ t ∧ v.Instance = inst ∧
      (∀ r ∈ t, r.Instance = inst → v.LastSeen ≤ r.LastSeen) ∧ t.evict inst = t.erase v := by
  obtain ⟨v, hv⟩ := oldest_isSome _ h
  have hm := oldest_mem _ _ hv
  have hmt : v ∈ t ∧ v.Instance = inst := by
    unfold Table.rowsOf at hm
    simpa [List.mem_filter] using hm
  refine ⟨v, hv, hmt.1, hmt.2, ?_, ?_⟩
  · intro r hr hri
    apply oldest_le _ _ hv
    unfold Table.rowsOf
    simp [List.mem_filter, hr, hri]
  · unfold Table.evict
    rw [hv]

theorem map_key_replace (t : Table) (k : Key) (new : BGPReconcileError) (hnew : new.key = k) :
    (t.map (fun r => if r.key = k then new else r)).map BGPReconcileError.key =
      t.map BGPReconcileError.key := by
  rw [List.map_map]
  apply List.map_congr_left
  intro r _
  simp only [Function.comp]
  split
  · rename_i h; rw [hnew, h]
  · rfl

theorem Inv_insert (t : Table) (k : Key) (msg : String) (now : Nat) (h : t.Inv) :
    (t.insert k msg now).Inv := by
  cases hl : t.lookup k with
  | some old =>
    have hk := insert_found_key k msg now old (lookup_key hl)
    rw [insert_found t k msg now old hl]
    constructor
    · intro inst
      rw [rowsOf_map_length]
      · exact h.1 inst
      · intro r
        split
        · rename_i hr
          rw [key_instance hk, key_instance hr]
        · rfl
    · rw [map_key_replace t k _ hk]
      exact h.2
  | none =>
    rw [insert_absent t k msg now hl]
    have hsub : (if maxRowsPerInstance ≤ (t.rowsOf k.Instance).length then t.evict k.Instance
        else t).Sublist t := by
      split
      · exact evict_sublist t k.Instance
      · exact List.Sublist.refl _
    constructor
    · intro inst
      rw [rowsOf_append_singleton]
      by_cases hi : (newRow k msg now).Instance = inst
      · rw [if_pos hi]
        have hi2 : k.Instance = inst := hi
        subst hi2
        split
        · rename_i hfull
          have hne : t.rowsOf k.Instance ≠ [] := by
            intro hnil
            rw [hnil] at hfull
            simp [maxRowsPerInstance] at hfull
          obtain ⟨v, _, hvt, hvi, _, hev⟩ := evict_spec t k.Instance hne
          rw [hev]
          have := rowsOf_erase_length t k.Instance v hvt hvi
          have := h.1 k.Instance
          omega
        · omega
      · rw [if_neg hi]
        have := rowsOf_sublist_length inst hsub
        have := h.1 inst
        omega
    · rw [List.map_append, List.nodup_append]
      refine ⟨(hsub.map _).nodup h.2, by simp, ?_⟩
      intro a ha hb
      simp only [List.map_cons, List.map_nil, List.mem_singleton] at hb
      rw [hb, newRow_key] at ha
      obtain ⟨r, hr, hrk⟩ := List.mem_map.1 ha
      unfold Table.lookup at hl
      rw [List.find?_eq_none] at hl
      exact hl r (hsub.subset hr) (by simpa using hrk)

theorem Inv_delete (t : Table) (k : Key) (h : t.Inv) : (t.delete k).Inv := by
  have hsub : (t.delete k).Sublist t := List.filter_sublist _
  exact ⟨fun inst => le_trans (rowsOf_sublist_length inst hsub) (h.1 inst),
    (hsub.map _).nodup h.2⟩

theorem Inv_foldl : ∀ (ops : List TableOp) (t : Table), t.Inv → (ops.foldl Table.apply t).Inv
  | [], _, h => h
  | op :: ops, t, h => by
    apply Inv_foldl ops
    cases op with
    | insert k msg now => exact Inv_insert t k msg now h
    | delete k => exact Inv_delete t k h

theorem Inv_run (ops : List TableOp) : (runTable ops).Inv :=
  Inv_foldl ops [] ⟨fun _ => Nat.zero_le _, List.nodup_nil⟩

theorem fillKey_injective {i j : Nat} (h : fillKey i = fillKey j) : i = j := by
  have hd := congrArg (fun k => k.ResourceName.data.length) h
  simpa [fillKey] using hd

theorem fillTable_rowsOf (n : Nat) : (fillTable n).rowsOf "65001" = fillTable n := by
  unfold Table.rowsOf
  rw [List.filter_eq_self]
  intro r hr
  unfold fillTable at hr
  obtain ⟨i, _, rfl⟩ := List.mem_map.1 hr
  rfl

theorem fillTable_length (n : Nat) : (fillTable n).length = n := by
  simp [fillTable]

theorem fillTable_lookup_fillKey (n : Nat) : (fillTable n).lookup (fillKey n) = none := by
  unfold Table.lookup
  rw [List.find?_eq_none]
  intro r hr
  unfold fillTable at hr
  obtain ⟨i, hi, rfl⟩ := List.mem_map.1 hr
  have hlt : i < n := List.mem_range.1 hi
  intro hk
  have hk2 : fillKey i = fillKey n := by simpa [newRow_key] using hk
  have := fillKey_injective hk2
  omega

theorem fillTable_lookup_freshKey (n : Nat) : (fillTable n).lookup freshKey = none := by
  unfold Table.lookup
  rw [List.find?_eq_none]
  intro r hr
  unfold fillTable at hr
  obtain ⟨i, _, rfl⟩ := List.mem_map.1 hr
  intro hk
  have hk2 : fillKey i = freshKey := by simpa [newRow_key] using hk
  have hd : List.replicate i 'a' = ['b', 'g', 'p', '-', 'a', 'u', 't', 'h'] :=
    congrArg (fun k => k.ResourceName.data) hk2
  cases i with
  | zero => simp at hd
  | succ j => simp [List.replicate_succ] at hd

theorem run_fillOps (n : Nat) (hn : n ≤ maxRowsPerInstance) :
    runTable (fillOps n) = fillTable n := by
  induction n with
  | zero => rfl
  | succ m ih =>
    have ih2 := ih (Nat.le_of_succ_le hn)
    unfold runTable at ih2 ⊢
    unfold fillOps at ih2 ⊢
    rw [List.range_succ, List.map_append, List.foldl_append, ih2]
    simp only [List.map_cons, List.map_nil, List.foldl_cons, List.foldl_nil, Table.apply]
    rw [insert_absent _ _ _ _ (fillTable_lookup_fillKey m)]
    have hinst : (fillKey m).Instance = "65001" := rfl
    rw [hinst, fillTable_rowsOf, fillTable_length]
    have hlt : ¬ maxRowsPerInstance ≤ m := by omega
    rw [if_neg hlt]
    unfold fillTable
    rw [List.range_succ, List.map_append]
    rfl

/-- C9: error table deduplication. Inserting an error whose primary key
(instance, kind, name) already has a row with the same message adds no row,
increments that row's count and sets its lastSeen, and leaves the other rows as
they were; inserting with a different message puts the new row in place of the
previous one; and the same failure reported N times in a row on a table without
that key leaves exactly one row with that key, with count N and lastSeen the
time of the last report. -/
theorem errorTable_insert_dedup (t : Table) (k : Key) (msg : String) :
    (∀ (old : BGPReconcileError) (now : Nat), t.lookup k = some old → old.ErrorString = msg →
        (t.insert k msg now).length = t.length ∧
        (t.insert k msg now).lookup k =
          some { old with Count := old.Count + 1, LastSeen := now } ∧
        (t.insert k msg now).filter (fun r => !decide (r.key = k)) =
          t.filter (fun r => !decide (r.key = k))) ∧
    (∀ (old : BGPReconcileError) (now : Nat), t.lookup k = some old → old.ErrorString ≠ msg →
        (t.insert k msg now).length = t.length ∧
        (t.insert k msg now).lookup k = some (newRow k msg now) ∧
        (t.insert k msg now).filter (fun r => !decide (r.key = k)) =
          t.filter (fun r => !decide (r.key = k))) ∧
    (∀ (now : Nat) (later : List Nat), t.lookup k = none →
        (t.insertAll k msg (now :: later)).filter (fun r => decide (r.key = k)) =
          [{ newRow k msg now with
              Count := (now :: later).length
              LastSeen := (now :: later).getLast (List.cons_ne_nil now later) }]) := by
  refine ⟨?_, ?_, ?_⟩
  · intro old now hl hm
    refine ⟨insert_found_length t k msg now old hl, ?_, insert_found_others t k msg now old hl⟩
    rw [insert_found_lookup t k msg now old hl, if_pos hm]
  · intro old now hl hm
    refine ⟨insert_found_length t k msg now old hl, ?_, insert_found_others t k msg now old hl⟩
    rw [insert_found_lookup t k msg now old hl, if_neg hm]
  · intro now later hl
    have h1 := insert_absent_filter t k msg now hl
    have h2 := insertAll_filter k later (t.insert k msg now) (newRow k msg now) h1
    have hunf : t.insertAll k msg (now :: later) =
        (t.insert k msg now).insertAll k (newRow k msg now).ErrorString later := rfl
    rw [hunf, h2]
    have hc : (newRow k msg now).Count + later.length = (now :: later).length := by
      simp only [newRow, List.length_cons]; omega
    rw [hc]
    cases later with
    | nil => rfl
    | cons a as => rfl

/-- Witness for C9: a row with count 3 is reported again with the same message,
then with another message, and a new failure is reported three times. -/
theorem errorTable_insert_dedup_witness :
    (Table.insert [exampleRow] exampleKey "secret not found" 40).lookup exampleKey =
        some { exampleRow with Count := exampleRow.Count + 1, LastSeen := 40 } ∧
      (Table.insert [exampleRow] exampleKey "auth failed" 40).lookup exampleKey =
        some (newRow exampleKey "auth failed" 40) ∧
      (Table.insertAll [] exampleKey "secret not found" [5, 6, 7]).filter
          (fun r => decide (r.key = exampleKey)) =
        [{ newRow exampleKey "secret not found" 5 with Count := 3, LastSeen := 7 }] :=
  ⟨((errorTable_insert_dedup [exampleRow] exampleKey "secret not found").1 exampleRow 40
      (by decide) (by decide)).2.1,
    ((errorTable_insert_dedup [exampleRow] exampleKey "auth failed").2.1 exampleRow 40
      (by decide) (by decide)).2.1,
    (errorTable_insert_dedup [] exampleKey "secret not found").2.2 5 [6, 7] (by decide)⟩

/-- C10: error table cap. In every reachable table no instance has more than
1024 rows; and an insertion of a new key for an instance that already has 1024
rows evicts one row of that instance whose lastSeen is the smallest among the
rows of that instance: the new table is the old one without that row, followed
by the new row, and the instance again has 1024 rows. -/
theorem errorTable_cap (ops : List TableOp) :
    (∀ inst : String, ((runTable ops).rowsOf inst).length ≤ 1024) ∧
    (∀ (k : Key) (msg : String) (now : Nat),
        (runTable ops).lookup k = none → ((runTable ops).rowsOf k.Instance).length = 1024 →
        ∃ v, v ∈ runTable ops ∧ v.Instance = k.Instance ∧
          (∀ r ∈ runTable ops, r.Instance = k.Instance → v.LastSeen ≤ r.LastSeen) ∧
          (runTable ops).insert k msg now = (runTable ops).erase v ++ [newRow k msg now] ∧
          v ∉ (runTable ops).insert k msg now ∧
          (Table.rowsOf ((runTable ops).insert k msg now) k.Instance).length = 1024) := by
  have hinv := Inv_run ops
  refine ⟨hinv.1, ?_⟩
  intro k msg now hl hfull
  have hne : (runTable ops).rowsOf k.Instance ≠ [] := by
    intro hnil
    rw [hnil] at hfull
    simp at hfull
  obtain ⟨v, _, hvt, hvi, hmin, hev⟩ := evict_spec (runTable ops) k.Instance hne
  have hins : (runTable ops).insert k msg now = (runTable ops).erase v ++ [newRow k msg now] := by
    rw [insert_absent _ k msg now hl, if_pos (by rw [hfull]; exact le_refl _), hev]
  have hnd : (runTable ops).Nodup := List.Nodup.of_map _ hinv.2
  refine ⟨v, hvt, hvi, hmin, hins, ?_, ?_⟩
  · rw [hins, List.mem_append, not_or]
    constructor
    · intro hmem
      exact ((hnd.mem_erase_iff).1 hmem).1 rfl
    · intro hmem
      rw [List.mem_singleton] at hmem
      unfold Table.lookup at hl
      rw [List.find?_eq_none] at hl
      apply hl v hvt
      rw [hmem]
      simp [newRow_key]
  · have hself : (newRow k msg now).Instance = k.Instance := rfl
    rw [hins, rowsOf_append_singleton, if_pos hself]
    have := rowsOf_erase_length (runTable ops) k.Instance v hvt hvi
    omega

/-- Witness for C10: after 1024 distinct errors of instance 65001, one more
distinct error of that instance evicts the row with the oldest lastSeen. -/
theorem errorTable_cap_witness :
    ∃ v, v ∈ runTable (fillOps 1024) ∧ v.Instance = freshKey.Instance ∧
      (∀ r ∈ runTable (fillOps 1024), r.Instance = freshKey.Instance → v.LastSeen ≤ r.LastSeen) ∧
      (runTable (fillOps 1024)).insert freshKey "secret not found" 5000 =
        (runTable (fillOps 1024)).erase v ++ [newRow freshKey "secret not found" 5000] ∧
      v ∉ (runTable (fillOps 1024)).insert freshKey "secret not found" 5000 ∧
      (Table.rowsOf ((runTable (fillOps 1024)).insert freshKey "secret not found" 5000)
        freshKey.Instance).length = 1024 :=
  (errorTable_cap (fillOps 1024)).2 freshKey "secret not found" 5000
    (by rw [run_fillOps 1024 (le_refl _)]; exact fillTable_lookup_freshKey 1024)
    (by
      rw [run_fillOps 1024 (le_refl _)]
      have hinst : freshKey.Instance = "65001" := rfl
      rw [hinst, fillTable_rowsOf, fillTable_length])

end Tables

/-! ## Theorems: the DiffStore -/

namespace Store

theorem mem_addKey (keys : List ResourceKey) (k j : ResourceKey) :
    j ∈ addKey keys k ↔ j ∈ keys ∨ j = k := by
  unfold addKey
  split
  · rename_i h
    constructor
    · exact Or.inl
    · rintro (h1 | h1)
      · exact h1
      · rw [h1]; exact h
  · simp

theorem nodup_addKey (keys : List ResourceKey) (k : ResourceKey) (h : keys.Nodup) :
    (addKey keys k).Nodup := by
  unfold addKey
  split
  · exact h
  · rename_i hk
    rw [List.nodup_append]
    refine ⟨h, List.nodup_singleton k, ?_⟩
    intro a ha hb
    rw [List.mem_singleton] at hb
    exact hk (hb ▸ ha)

theorem handleEvent_nodup (s : DiffStore) (e : StoreEvent)
    (h : s.upsertedKeys.Nodup ∧ s.deletedKeys.Nodup) :
    (s.handleEvent e).upsertedKeys.Nodup ∧ (s.handleEvent e).deletedKeys.Nodup := by
  cases e with
  | upsert k =>
    simp only [DiffStore.handleEvent, DiffStore.upsert]
    split
    · exact h
    · exact ⟨nodup_addKey _ k h.1, h.2⟩
  | delete k =>
    exact ⟨h.1.filter _, nodup_addKey _ k h.2⟩

theorem handleEvents_nodup : ∀ (events : List StoreEvent) (s : DiffStore),
    s.upsertedKeys.Nodup ∧ s.deletedKeys.Nodup →
    (s.handleEvents events).upsertedKeys.Nodup ∧ (s.handleEvents events).deletedKeys.Nodup
  | [], _, h => h
  | e :: es, s, h => handleEvents_nodup es (s.handleEvent e) (handleEvent_nodup s e h)

theorem mem_deletedKeys_handleEvents : ∀ (events : List StoreEvent) (s : DiffStore)
    (k : ResourceKey),
    k ∈ (s.handleEvents events).deletedKeys ↔ k ∈ s.deletedKeys ∨ StoreEvent.delete k ∈ events
  | [], s, k => by simp [DiffStore.handleEvents]
  | e :: es, s, k => by
    have ih := mem_deletedKeys_handleEvents es (s.handleEvent e) k
    have hunf : s.handleEvents (e :: es) = (s.handleEvent e).handleEvents es := rfl
    rw [hunf, ih]
    cases e with
    | upsert j =>
      have hd : (s.handleEvent (.upsert j)).deletedKeys = s.deletedKeys := by
        simp only [DiffStore.handleEvent, DiffStore.upsert]
        split <;> rfl
      rw [hd]
      simp
    | delete j =>
      have hd : (s.handleEvent (.delete j)).deletedKeys = addKey s.deletedKeys j := rfl
      rw [hd, mem_addKey]
      simp only [List.mem_cons, StoreEvent.delete.injEq]
      tauto

theorem mem_upsertedKeys_handleEvents : ∀ (events : List StoreEvent) (s : DiffStore)
    (k : ResourceKey),
    k ∈ (s.handleEvents events).upsertedKeys ↔
      (k ∈ s.upsertedKeys ∨ (StoreEvent.upsert k ∈ events ∧ k ∉ s.deletedKeys)) ∧
        StoreEvent.delete k ∉ events
  | [], s, k => by simp [DiffStore.handleEvents]
  | e :: es, s, k => by
    have ih := mem_upsertedKeys_handleEvents es (s.handleEvent e) k
    have hunf : s.handleEvents (e :: es) = (s.handleEvent e).handleEvents es := rfl
    rw [hunf, ih]
    cases e with
    | upsert j =>
      simp only [DiffStore.handleEvent, DiffStore.upsert, List.mem_cons, StoreEvent.upsert.injEq,
        reduceCtorEq, false_or]
      by_cases hj : j ∈ s.deletedKeys
      · rw [if_pos hj]
        by_cases hkj : k = j
        · subst hkj; tauto
        · tauto
      · rw [if_neg hj]
        simp only [mem_addKey]
        by_cases hkj : k = j
        · subst hkj; tauto
        · tauto
    | delete j =>
      have hu : (s.handleEvent (.delete j)).upsertedKeys =
          s.upsertedKeys.filter (fun i => !decide (i = j)) := rfl
      have hd : (s.handleEvent (.delete j)).deletedKeys = addKey s.deletedKeys j := rfl
      rw [hu, hd, mem_addKey]
      simp only [List.mem_filter, List.mem_cons, StoreEvent.delete.injEq, reduceCtorEq, false_or,
        Bool.not_eq_true', decide_eq_false_iff_not]
      tauto

/-- C11: DiffStore drain. After a `Diff()`, for every sequence of upsert and
delete events, the next `Diff()` returns slices in which no key occurs twice; a
key that was both upserted and deleted is in the deleted slice and not in the
upserted slice; the deleted slice holds exactly the deleted keys and the
upserted slice exactly the keys upserted and not deleted; and a further `Diff()`
with no event in between returns two empty slices. -/
theorem diffStore_drain (s : DiffStore) (events : List StoreEvent) :
    ((s.Diff.2.handleEvents events).Diff.1.1).Nodup ∧
    ((s.Diff.2.handleEvents events).Diff.1.2).Nodup ∧
    (∀ k, StoreEvent.upsert k ∈ events → StoreEvent.delete k ∈ events →
      k ∈ (s.Diff.2.handleEvents events).Diff.1.2 ∧
        k ∉ (s.Diff.2.handleEvents events).Diff.1.1) ∧
    (∀ k, k ∈ (s.Diff.2.handleEvents events).Diff.1.2 ↔ StoreEvent.delete k ∈ events) ∧
    (∀ k, k ∈ (s.Diff.2.handleEvents events).Diff.1.1 ↔
      (StoreEvent.upsert k ∈ events ∧ StoreEvent.delete k ∉ events)) ∧
    ((s.Diff.2.handleEvents events).Diff.2).Diff.1 = ([], []) := by
  have hnd := handleEvents_nodup events NewDiffStore ⟨List.nodup_nil, List.nodup_nil⟩
  have hdel := mem_deletedKeys_handleEvents events NewDiffStore
  have hups := mem_upsertedKeys_handleEvents events NewDiffStore
  have hnil : ∀ k : ResourceKey, k ∉ NewDiffStore.upsertedKeys ∧ k ∉ NewDiffStore.deletedKeys :=
    fun k => ⟨List.not_mem_nil k, List.not_mem_nil k⟩
  have hD : ∀ k, k ∈ (NewDiffStore.handleEvents events).deletedKeys ↔
      StoreEvent.delete k ∈ events := by
    intro k
    rw [hdel k]
    have := (hnil k).2
    tauto
  have hU : ∀ k, k ∈ (NewDiffStore.handleEvents events).upsertedKeys ↔
      (StoreEvent.upsert k ∈ events ∧ StoreEvent.delete k ∉ events) := by
    intro k
    rw [hups k]
    have := hnil k
    tauto
  refine ⟨hnd.1, hnd.2, ?_, hD, hU, rfl⟩
  intro k hu hd
  exact ⟨(hD k).2 hd, fun hmem => ((hU k).1 hmem).2 hd⟩

/-- Witness for C11: `svc-a` is upserted, deleted and upserted again between
two drains, `svc-b` is only upserted; `svc-a` is reported as deleted and not as
upserted. -/
theorem diffStore_drain_witness :
    svcA ∈ ((NewDiffStore.Diff.2.handleEvents
        [.upsert svcA, .upsert svcB, .delete svcA, .upsert svcA]).Diff.1.2) ∧
      svcA ∉ ((NewDiffStore.Diff.2.handleEvents
        [.upsert svcA, .upsert svcB, .delete svcA, .upsert svcA]).Diff.1.1) :=
  (diffStore_drain NewDiffStore
    [.upsert svcA, .upsert svcB, .delete svcA, .upsert svcA]).2.2.1 svcA
    (by decide) (by decide)

end Store

/-! ## Theorems: `pkg/bgpv1/cell.go`, logging, namespace scope and gating -/

namespace Bgpv1

/-- C12: `newSecretResource` logs the warning `bgp-secrets-namespace not set`
exactly once if and only if the BGP control plane is enabled, the clientset is
enabled and `BGPSecretsNamespace` is empty; on every other path it logs
nothing, in particular for an empty namespace with BGP disabled. -/
theorem newSecretResource_warning (lc : Lifecycle) (c : Clientset) (dc : DaemonConfig) :
    ((newSecretResource lc c dc).1 = [secretsNamespaceWarning] ↔
        (dc.BGPControlPlaneEnabled = true ∧ c.IsEnabled = true ∧
          dc.BGPSecretsNamespace = "")) ∧
      (¬ (dc.BGPControlPlaneEnabled = true ∧ c.IsEnabled = true ∧
          dc.BGPSecretsNamespace = "") → (newSecretResource lc c dc).1 = []) ∧
      (dc.BGPControlPlaneEnabled = false → dc.BGPSecretsNamespace = "" →
        (newSecretResource lc c dc).1 = []) := by
  unfold newSecretResource
  cases hb : dc.BGPControlPlaneEnabled <;> cases hc : c.IsEnabled <;>
    by_cases hn : dc.BGPSecretsNamespace = "" <;> simp [hn]

/-- Witness for C12: an empty secrets namespace with BGP disabled and the
clientset enabled logs nothing. -/
theorem newSecretResource_warning_witness :
    (newSecretResource ⟨0⟩ ⟨true⟩ ⟨false, "", "multi-pool"⟩).1 = [] :=
  (newSecretResource_warning ⟨0⟩ ⟨true⟩ ⟨false, "", "multi-pool"⟩).2.2 rfl rfl

/-- C13: whenever `newSecretResource` creates the Secret resource, the typed
client handed to its lister-watcher is `Secrets(dc.BGPSecretsNamespace)` with a
non-empty namespace, so it lists and watches the Secrets of that namespace and
of no other; and with BGP and the clientset enabled and a non-empty namespace
the resource is created. -/
theorem newSecretResource_namespace (lc : Lifecycle) (c : Clientset) (dc : DaemonConfig) :
    (∀ r, (newSecretResource lc c dc).2 = some r →
        r.client = .Secrets dc.BGPSecretsNamespace ∧ dc.BGPSecretsNamespace ≠ "" ∧
        (∀ n, r.client.listsSecretsOf n = true ↔ n = dc.BGPSecretsNamespace) ∧
        (∀ n, r.client = .Secrets n → n = dc.BGPSecretsNamespace)) ∧
      (dc.BGPControlPlaneEnabled = true → c.IsEnabled = true → dc.BGPSecretsNamespace ≠ "" →
        (newSecretResource lc c dc).2 =
          some (resourceNew lc (.Secrets dc.BGPSecretsNamespace) none)) := by
  unfold newSecretResource
  cases hb : dc.BGPControlPlaneEnabled <;> cases hc : c.IsEnabled <;>
    by_cases hn : dc.BGPSecretsNamespace = "" <;>
    simp [hn, resourceNew, TypedClient.listsSecretsOf]

/-- Witness for C13: with BGP and the clientset enabled and the namespace
`kube-system`, the resource is the one over `Secrets("kube-system")`, which
lists the Secrets of `kube-system` and not those of `default`. -/
theorem newSecretResource_namespace_witness :
    (newSecretResource ⟨0⟩ ⟨true⟩ ⟨true, "kube-system", "multi-pool"⟩).2 =
        some (resourceNew ⟨0⟩ (.Secrets "kube-system") none) ∧
      ((TypedClient.Secrets "kube-system").listsSecretsOf "kube-system" = true ∧
        ¬ (TypedClient.Secrets "kube-system").listsSecretsOf "default" = true) :=
  ⟨(newSecretResource_namespace ⟨0⟩ ⟨true⟩ ⟨true, "kube-system", "multi-pool"⟩).2
      rfl rfl (by decide),
    by decide, by decide⟩

/-- C14: the five constructors `newBGPPeeringPolicyResource`,
`newLoadBalancerIPPoolResource`, `newBGPNodeConfigResource`,
`newBGPPeerConfigResource` and `newBGPAdvertisementResource` have the same
gating: each returns non-nil if and only if the BGP control plane and the
clientset are both enabled, and the result does not change when the IPAM mode
and the secrets namespace are replaced by any other values. -/
theorem plain_constructors_gating (lc : Lifecycle) (c : Clientset) (dc : DaemonConfig) :
    (((newBGPPeeringPolicyResource lc c dc).isSome = true ↔
        (dc.BGPControlPlaneEnabled = true ∧ c.IsEnabled = true)) ∧
      ((newLoadBalancerIPPoolResource lc c dc).isSome = true ↔
        (dc.BGPControlPlaneEnabled = true ∧ c.IsEnabled = true)) ∧
      ((newBGPNodeConfigResource lc c dc).isSome = true ↔
        (dc.BGPControlPlaneEnabled = true ∧ c.IsEnabled = true)) ∧
      ((newBGPPeerConfigResource lc c dc).isSome = true ↔
        (dc.BGPControlPlaneEnabled = true ∧ c.IsEnabled = true)) ∧
      ((newBGPAdvertisementResource lc c dc).isSome = true ↔
        (dc.BGPControlPlaneEnabled = true ∧ c.IsEnabled = true))) ∧
    (∀ ns ipam : String,
      newBGPPeeringPolicyResource lc c { dc with BGPSecretsNamespace := ns, IPAM := ipam } =
        newBGPPeeringPolicyResource lc c dc ∧
      newLoadBalancerIPPoolResource lc c { dc with BGPSecretsNamespace := ns, IPAM := ipam } =
        newLoadBalancerIPPoolResource lc c dc ∧
      newBGPNodeConfigResource lc c { dc with BGPSecretsNamespace := ns, IPAM := ipam } =
        newBGPNodeConfigResource lc c dc ∧
      newBGPPeerConfigResource lc c { dc with BGPSecretsNamespace := ns, IPAM := ipam } =
        newBGPPeerConfigResource lc c dc ∧
      newBGPAdvertisementResource lc c { dc with BGPSecretsNamespace := ns, IPAM := ipam } =
        newBGPAdvertisementResource lc c dc) := by
  refine ⟨?_, fun ns ipam => ⟨rfl, rfl, rfl, rfl, rfl⟩⟩
  unfold newBGPPeeringPolicyResource newLoadBalancerIPPoolResource newBGPNodeConfigResource
    newBGPPeerConfigResource newBGPAdvertisementResource
  cases hb : dc.BGPControlPlaneEnabled <;> cases hc : c.IsEnabled <;> simp

end Bgpv1

/-! ## Theorems: `go-openapi/errors/parsing.go`, `MarshalJSON` -/

namespace OpenapiErrors

theorem decode_size_pos (b : Byte) (rest : GoString) :
    1 ≤ (DecodeRuneInString (b :: rest)).2 := by
  unfold DecodeRuneInString
  have hlen : ¬ (b :: rest).length < 1 := by simp
  rw [if_neg hlen]
  split_ifs <;> simp

theorem jsonStringAux_of_valid : ∀ (fuel : Nat) (s : GoString), s.length ≤ fuel →
    ValidStringAux fuel s = true → jsonStringAux fuel s = s
  | 0, s, hl, _ => by
    have : s = [] := List.length_eq_zero.1 (Nat.le_zero.1 hl)
    subst this
    rfl
  | fuel + 1, [], _, _ => rfl
  | fuel + 1, b :: rest, hl, hv => by
    have hlen : rest.length ≤ fuel := by simpa using hl
    unfold ValidStringAux at hv
    unfold jsonStringAux
    by_cases hb : b.val < RuneSelf
    · rw [if_pos hb] at hv ⊢
      rw [jsonStringAux_of_valid fuel rest hlen hv]
    · rw [if_neg hb] at hv ⊢
      by_cases h1 : (DecodeRuneInString (b :: rest)).2 = 1
      · rw [if_pos h1] at hv
        exact absurd hv (by decide)
      · rw [if_neg h1] at hv
        rw [if_neg (fun h => h1 h.2)]
        have hpos := decode_size_pos b rest
        have hdrop : ((b :: rest).drop (DecodeRuneInString (b :: rest)).2).length ≤ fuel := by
          rw [List.length_drop]
          simp only [List.length_cons]
          omega
        rw [jsonStringAux_of_valid fuel _ hdrop hv, List.take_append_drop]

theorem jsonString_of_valid (s : GoString) (h : ValidString s = true) : jsonString s = s :=
  jsonStringAux_of_valid s.length s (le_refl _) h

/-- C6, counterexample: for name `limit`, in `query`, the one-byte value `0xFF`
(not valid UTF-8) and a nil reason, `MarshalJSON` succeeds, but the value member
of the object is U+FFFD (bytes `EF BF BD`) and not the argument, so the object
is not the one the claim describes. -/
theorem NewParseError_marshalJSON_invalid_utf8 :
    (NewParseErrorBytes quoteBytes (asciiBytes "limit") (asciiBytes "query") [0xFF]
        none).MarshalJSON =
      .ok [("code", .number 400),
        ("message", .string (asciiBytes "parsing limit query from " ++
          [34, 92, 120, 102, 102, 34] ++ asciiBytes " failed, because %!s(<nil>)")),
        ("in", .string (asciiBytes "query")),
        ("name", .string (asciiBytes "limit")),
        ("value", .string [0xEF, 0xBF, 0xBD]),
        ("reason", .string [])] ∧
      (NewParseErrorBytes quoteBytes (asciiBytes "limit") (asciiBytes "query") [0xFF]
        none).MarshalJSON ≠
        specMarshalJSON quoteBytes (asciiBytes "limit") (asciiBytes "query") [0xFF] none := by
  have h1 : [("code", JSONValue.number 400),
      ("message", .string (jsonString (NewParseErrorBytes quoteBytes (asciiBytes "limit")
        (asciiBytes "query") [0xFF] none).Error)),
      ("in", .string (jsonString (asciiBytes "query"))),
      ("name", .string (jsonString (asciiBytes "limit"))),
      ("value", .string (jsonString [0xFF])),
      ("reason", .string (jsonString []))] =
      [("code", JSONValue.number 400),
      ("message", .string (asciiBytes "parsing limit query from " ++
        [34, 92, 120, 102, 102, 34] ++ asciiBytes " failed, because %!s(<nil>)")),
      ("in", .string (asciiBytes "query")),
      ("name", .string (asciiBytes "limit")),
      ("value", .string [0xEF, 0xBF, 0xBD]),
      ("reason", .string [])] := by decide
  refine ⟨congrArg Except.ok h1, fun h => ?_⟩
  have h2 : [("code", JSONValue.number 400),
      ("message", .string (jsonString (NewParseErrorBytes quoteBytes (asciiBytes "limit")
        (asciiBytes "query") [0xFF] none).Error)),
      ("in", .string (jsonString (asciiBytes "query"))),
      ("name", .string (jsonString (asciiBytes "limit"))),
      ("value", .string (jsonString [0xFF])),
      ("reason", .string (jsonString []))] =
      [("code", JSONValue.number (NewParseErrorBytes quoteBytes (asciiBytes "limit")
        (asciiBytes "query") [0xFF] none).Code),
      ("message", .string (NewParseErrorBytes quoteBytes (asciiBytes "limit")
        (asciiBytes "query") [0xFF] none).Error),
      ("in", .string (asciiBytes "query")),
      ("name", .string (asciiBytes "limit")),
      ("value", .string [0xFF]),
      ("reason", .string [])] := Except.ok.inj h
  revert h2
  decide

/-- C6, amended: for every name, in, value and reason (nil included),
`MarshalJSON` of `NewParseError(name, in, value, reason)` succeeds with an
object of exactly the six members code, message, in, name, value, reason, where
code is `Code()` (400) and the five string members are `Error()`, the arguments
in, name and value, and the reason text (empty for a nil reason,
`reason.Error()` otherwise), each with U+FFFD in place of every byte that is not
part of a valid UTF-8 sequence; when these five strings are valid UTF-8 the
members equal them unchanged. -/
theorem NewParseError_marshalJSON_coerced (quote : GoString → GoString)
    (name in_ value : GoString) (reason : Option GoErrorBytes) :
    (NewParseErrorBytes quote name in_ value reason).MarshalJSON =
      .ok [("code", .number 400),
        ("message", .string (jsonString (NewParseErrorBytes quote name in_ value reason).Error)),
        ("in", .string (jsonString in_)),
        ("name", .string (jsonString name)),
        ("value", .string (jsonString value)),
        ("reason", .string (jsonString (reasonText reason)))] ∧
      (NewParseErrorBytes quote name in_ value reason).Code = 400 ∧
      (ValidString (NewParseErrorBytes quote name in_ value reason).Error = true →
        ValidString in_ = true → ValidString name = true → ValidString value = true →
        ValidString (reasonText reason) = true →
        (NewParseErrorBytes quote name in_ value reason).MarshalJSON =
          specMarshalJSON quote name in_ value reason) := by
  have hobj : (NewParseErrorBytes quote name in_ value reason).MarshalJSON =
      .ok [("code", .number 400),
        ("message", .string (jsonString (NewParseErrorBytes quote name in_ value reason).Error)),
        ("in", .string (jsonString in_)),
        ("name", .string (jsonString name)),
        ("value", .string (jsonString value)),
        ("reason", .string (jsonString (reasonText reason)))] := by
    cases reason <;> rfl
  refine ⟨hobj, rfl, ?_⟩
  intro hm hi hn hv hr
  rw [hobj, jsonString_of_valid _ hm, jsonString_of_valid _ hi, jsonString_of_valid _ hn,
    jsonString_of_valid _ hv, jsonString_of_valid _ hr]
  rfl

/-- Witness for C6: the name `café` (with a two-byte rune), in `query`, value
`abc` and a reason are valid UTF-8, and the object has them unchanged. -/
theorem NewParseError_marshalJSON_coerced_witness :
    (NewParseErrorBytes quoteBytes (asciiBytes "caf" ++ [0xC3, 0xA9]) (asciiBytes "query")
        (asciiBytes "abc") (some ⟨asciiBytes "strconv: bad"⟩)).MarshalJSON =
      specMarshalJSON quoteBytes (asciiBytes "caf" ++ [0xC3, 0xA9]) (asciiBytes "query")
        (asciiBytes "abc") (some ⟨asciiBytes "strconv: bad"⟩) :=
  (NewParseError_marshalJSON_coerced quoteBytes (asciiBytes "caf" ++ [0xC3, 0xA9])
    (asciiBytes "query") (asciiBytes "abc") (some ⟨asciiBytes "strconv: bad"⟩)).2.2
    (by decide) (by decide) (by decide) (by decide) (by decide)

end OpenapiErrors
